import Mathlib

/-!
# CodeFlux — verification of the code-intelligence core and dashboard graph layer

Shallow embedding of the CodeFlux repository:
* the dashboard graph layer (`dashboard/src/utils/graphTransformer.ts`,
  `dashboard/src/components/GraphViewer.tsx`,
  `dashboard/src/components/RepoScanner.tsx`,
  `dashboard/src/components/ImpactSimulator.tsx`,
  `dashboard/src/services/repoService.ts`,
  `dashboard/src/types/index.ts`) is translated from the TypeScript source;
* the backend core (`app/services/graph_service.py`, `app/services/impact_service.py`
  and friends) is not part of the source tree available here, so those
  components are modelled from the specification (each such definition is
  marked `Modelled from the spec:`).

Presentation-only attributes of the React Flow output (colors, CSS styles,
labels used purely for rendering) are omitted from the embedding; all data
that the layout and filtering logic computes (ids, symbol types, positions,
edge endpoints, relations, cycle animation flags) is kept.
-/

namespace CodeFlux

/-! ## Dashboard data model (from `dashboard/src/types` as consumed by the source) -/

/-- A symbol node of the backend graph response, with the fields the dashboard
source reads: `id`, `name`, `type`, `file`, `qualified_name`, `start_line`,
`end_line`. -/
structure SymbolNode where
  id : String
  name : String
  type : String
  file : String
  qualified_name : Option String
  start_line : Nat
  end_line : Nat
  deriving DecidableEq, Repr

/-- A graph edge of the backend response: `source_id`, `target_id`, `relation`. -/
structure GraphEdge where
  source_id : String
  target_id : String
  relation : String
  deriving DecidableEq, Repr

/-- A circular-dependency entry of the backend response; the dashboard reads
its `cycle` field (a list of symbol names). -/
structure CycleInfo where
  cycle : List String
  deriving DecidableEq, Repr

/-- The graph response as consumed by `graphTransformer.ts` and
`GraphViewer.tsx`: `nodes`, `edges`, `circular_dependencies`,
`total_files`, `total_symbols`, `total_edges`. -/
structure GraphResponse where
  nodes : List SymbolNode
  edges : List GraphEdge
  circular_dependencies : List CycleInfo
  total_files : Nat
  total_symbols : Nat
  total_edges : Nat
  deriving DecidableEq, Repr

/-- `ViewMode` from the dashboard types: `'file' | 'symbol'`. -/
inductive ViewMode where
  | file
  | symbol
  deriving DecidableEq, Repr

/-- The names of the fields of the graph response that the dashboard graph
consumers (`transformGraph`, `GraphViewer`) read. -/
def graphResponseFields : List String :=
  ["nodes", "edges", "circular_dependencies",
   "total_files", "total_symbols", "total_edges"]

/-- Modelled from the spec: the field names the spec sentence
"`GET snapshot/{id}/graph` → returns `{nodes: Symbol[], edges: Edge[],
cycles: CyclePath[]}`" promises for the graph response. -/
def specGraphFields : List String :=
  ["nodes", "edges", "cycles"]

/-- The `stats` object computed by `GraphViewer.tsx` from the graph response:
`files`, `symbols`, `edges` come from the `total_*` fields and `cycles` is
the length of `circular_dependencies`. -/
structure GraphStats where
  files : Nat
  symbols : Nat
  edges : Nat
  cycles : Nat
  deriving DecidableEq, Repr

/-- `GraphViewer.stats` (source): reads `total_files`, `total_symbols`,
`total_edges` and `circular_dependencies.length` off the graph response. -/
def graphViewerStats (data : GraphResponse) : GraphStats :=
  { files := data.total_files
    symbols := data.total_symbols
    edges := data.total_edges
    cycles := data.circular_dependencies.length }

end CodeFlux

namespace CodeFlux

/-! ## `graphTransformer.ts` -/

/-- `nodeSize` (source): width/height per symbol type. -/
def nodeSize (type : String) : Nat × Nat :=
  if type = "module" then (200, 50)
  else if type = "class" then (170, 44)
  else (150, 38)

/-- A React Flow node as produced by `layoutNodes`; styling/color fields are
omitted, the structural data (id, position, symbol type, backing symbol,
child count) is kept. -/
structure FlowNode where
  id : String
  x : Int
  y : Int
  symbolType : String
  symbol : SymbolNode
  childCount : Option Nat
  deriving DecidableEq, Repr

/-- A React Flow edge as produced by `transformGraph`; styling fields are
omitted, the structural data (id, endpoints, label = relation, cycle
animation flag) is kept. -/
structure FlowEdge where
  id : String
  source : String
  target : String
  label : String
  animated : Bool
  deriving DecidableEq, Repr

/-- First-occurrence deduplication with the already-seen keys accumulated,
mirroring a JS `Map` populated by repeated `set` calls (the first insertion
fixes the position). -/
def dedupFirstAux {α : Type} [DecidableEq α] (seen : List α) : List α → List α
  | [] => []
  | a :: rest =>
    if a ∈ seen then dedupFirstAux seen rest
    else a :: dedupFirstAux (a :: seen) rest

/-- First-occurrence deduplication, the iteration order of a JS `Map`
populated by repeated `set` calls. -/
def dedupFirst {α : Type} [DecidableEq α] (l : List α) : List α :=
  dedupFirstAux [] l

/-- The files of a symbol list in first-occurrence order — the key order of
the `byFile` map built by `layoutNodes`. -/
def filesInOrder (symbols : List SymbolNode) : List String :=
  dedupFirst (symbols.map (·.file))

/-- The `byFile` grouping of `layoutNodes`: for each file (in first-occurrence
order) the symbols of that file, in their original order. -/
def groupsByFile (symbols : List SymbolNode) : List (String × List SymbolNode) :=
  (filesInOrder symbols).map (fun f => (f, symbols.filter (fun s => s.file = f)))

/-- The child rows of one file group in symbol view (source: the `childY`
loop of `layoutNodes`): each non-module, non-import symbol becomes a node at
`(fileX + 15, childY)`, `childY` advancing by the node height plus 16. -/
def layoutChildren (fileX : Int) : Int → List SymbolNode → List FlowNode
  | _, [] => []
  | childY, sym :: rest =>
    let csize := nodeSize sym.type
    { id := sym.id, x := fileX + 15, y := childY, symbolType := sym.type,
      symbol := sym, childCount := none } ::
      layoutChildren fileX (childY + (csize.2 : Int) + 16) rest

/-- One file group of `layoutNodes` (source): in file view one module-sized
node per file (id `moduleSym?.id || file`), in symbol view the module node
(when present) followed by the stacked children. -/
def layoutGroup (mode : ViewMode) (fileX : Int) (file : String)
    (syms : List SymbolNode) : List FlowNode :=
  let moduleSym := syms.find? (fun s => s.type = "module")
  let childSyms := syms.filter (fun s => s.type ≠ "module" ∧ s.type ≠ "import")
  match mode with
  | .file =>
    [{ id := (moduleSym.map (·.id)).getD file, x := fileX, y := 0,
       symbolType := "module",
       symbol := moduleSym.getD
         { id := file, name := file, type := "module", file := file,
           qualified_name := some file, start_line := 0, end_line := 0 },
       childCount := some childSyms.length }]
  | .symbol =>
    (match moduleSym with
     | some m =>
       [{ id := m.id, x := fileX, y := 0, symbolType := "module",
          symbol := m, childCount := some childSyms.length }]
     | none => []) ++ layoutChildren fileX 80 childSyms

/-- The horizontal advance of `fileX` per file group (source: `size.width +
60` in file view, `Math.max(size.width, 170) + 80` in symbol view, with
`size = nodeSize('module')`). -/
def fileXAdvance (mode : ViewMode) : Int :=
  match mode with
  | .file => 200 + 60
  | .symbol => max 200 170 + 80

/-- The group loop of `layoutNodes`, carrying the running `fileX`. -/
def layoutNodesAux (mode : ViewMode) : Int → List (String × List SymbolNode) → List FlowNode
  | _, [] => []
  | fileX, (f, syms) :: rest =>
    layoutGroup mode fileX f syms ++
      layoutNodesAux mode (fileX + fileXAdvance mode) rest

/-- `layoutNodes` (source): group the symbols by file and lay the groups out
left to right. -/
def layoutNodes (symbols : List SymbolNode) (mode : ViewMode) : List FlowNode :=
  layoutNodesAux mode 0 (groupsByFile symbols)

/-- The name→id map of `transformGraph` used for cycle matching, applied to
one name: the qualified-name binding wins over the bare-name binding of the
same symbol, later symbols overwrite earlier ones (JS `Map.set`). -/
def nameToId (nodes : List SymbolNode) (name : String) : Option String :=
  (nodes.foldl (fun acc n =>
      let acc := if n.qualified_name = some name then some n.id else acc
      if n.name = name then some n.id else acc)
    none)

/-- The `cycleNodeIds` set of `transformGraph`: ids that some cycle member
name resolves to. -/
def cycleNodeIds (data : GraphResponse) : List String :=
  data.circular_dependencies.flatMap (fun c => c.cycle.filterMap (nameToId data.nodes))

/-- The view-mode symbol filter of `transformGraph` (source): file view keeps
modules only, symbol view drops raw imports. -/
def filteredSymbols (data : GraphResponse) (mode : ViewMode) : List SymbolNode :=
  match mode with
  | .file => data.nodes.filter (fun n => n.type = "module")
  | .symbol => data.nodes.filter (fun n => n.type ≠ "import")

/-- The retained node ids (`nodeIdSet` in the source). -/
def nodeIdSet (data : GraphResponse) (mode : ViewMode) : List String :=
  (filteredSymbols data mode).map (·.id)

/-- The edge filter of `transformGraph` (source): in file view only `imports`
edges with both endpoints retained, in symbol view any edge with both
endpoints retained. -/
def filteredEdges (data : GraphResponse) (mode : ViewMode) : List GraphEdge :=
  data.edges.filter (fun e =>
    match mode with
    | .file => e.relation = "imports" ∧
        e.source_id ∈ nodeIdSet data .file ∧ e.target_id ∈ nodeIdSet data .file
    | .symbol => e.source_id ∈ nodeIdSet data .symbol ∧
        e.target_id ∈ nodeIdSet data .symbol)

/-- The edge mapping of `transformGraph` (source): edge `i` gets id `e-i`,
keeps its endpoints and relation label, and is animated when both endpoints
are cycle nodes. -/
def transformEdges (data : GraphResponse) (mode : ViewMode) : List FlowEdge :=
  (filteredEdges data mode).mapIdx (fun i e =>
    let isCycle := e.source_id ∈ cycleNodeIds data ∧ e.target_id ∈ cycleNodeIds data
    { id := "e-" ++ toString i, source := e.source_id, target := e.target_id,
      label := e.relation, animated := isCycle })

/-! ## Backend core data model

The Python backend (`app/services/graph_service.py`, `app/services/impact_service.py`,
the health scorer and the diff engine) is not part of the source tree
available here, so the core is modelled from the specification. -/

/-- Modelled from the spec: a `Symbol` of the core data model (§3), missing
with `app/models/graph.py` — `id` unique within snapshot, nullable
`qualifiedName`, `name`, `kind ∈ {module, class, function, method, import}`,
`file`, `startLine`, `endLine`. -/
structure Symbol where
  id : String
  qualifiedName : Option String
  name : String
  kind : String
  file : String
  startLine : Nat
  endLine : Nat
  /-- risk-pattern hit count, a precomputed per-symbol signal supplied by the
  extractor (spec §4.3: the core does not re-parse source). -/
  riskHits : Nat
  deriving DecidableEq, Repr

/-- Modelled from the spec: an `Edge` of the core data model (§3), missing
with `app/models/graph.py` — directed relation between two symbol ids,
`relation ∈ {defines, calls, imports}`. -/
structure Edge where
  sourceId : String
  targetId : String
  relation : String
  deriving DecidableEq, Repr

/-- Modelled from the spec: a `CyclePath` (§3), missing with
`app/services/graph_service.py` — an ordered sequence of symbol names
forming a cycle, plus `kind ∈ {import, call}`. -/
structure CyclePath where
  names : List String
  kind : String
  deriving DecidableEq, Repr

/-- Modelled from the spec: a `Snapshot` (§3), missing with the backend —
one scan's materialized graph: symbols, edges and the derived cycle list. -/
structure Snapshot where
  scanId : String
  repoId : String
  symbols : List Symbol
  edges : List Edge
  cycles : List CyclePath
  deriving DecidableEq, Repr

/-! ## Graph Builder (spec §4.1, backend source missing) -/

/-- Modelled from the spec: a raw edge candidate consumed by the Graph
Builder — a reference from a source symbol (by name, within a file) to a
target named entity, e.g. a call by bare name or an import by module path. -/
structure RawEdgeCandidate where
  sourceName : String
  sourceFile : String
  targetName : String
  relation : String
  deriving DecidableEq, Repr

/-- Modelled from the spec: the Graph Builder's best-effort resolution
strategy (§4.1) — prefer an exact qualified-name match within the same
file, then a same-module (same-file bare-name) match, then any unique name
match across the snapshot; otherwise unresolved (`none`). -/
def resolveName (symbols : List Symbol) (file name : String) : Option String :=
  match symbols.find? (fun s => s.qualifiedName = some name ∧ s.file = file) with
  | some s => some s.id
  | none =>
    match symbols.find? (fun s => s.name = name ∧ s.file = file) with
    | some s => some s.id
    | none =>
      match symbols.filter (fun s => s.name = name) with
      | [s] => some s.id
      | _ => none

/-- Modelled from the spec: edge assembly of the Graph Builder (§4.1) —
resolve each candidate's endpoints through the fallback chain and drop
(not fail on) candidates with an unresolved endpoint. -/
def buildEdges (symbols : List Symbol) (cands : List RawEdgeCandidate) : List Edge :=
  cands.filterMap (fun c =>
    match resolveName symbols c.sourceFile c.sourceName,
          resolveName symbols c.sourceFile c.targetName with
    | some src, some tgt => some { sourceId := src, targetId := tgt, relation := c.relation }
    | _, _ => none)

/-- Modelled from the spec: a raw symbol candidate consumed by the Graph
Builder, carrying the per-file data the external extractor emits. -/
structure RawSymbol where
  name : String
  qualifiedName : Option String
  kind : String
  file : String
  startLine : Nat
  endLine : Nat
  riskHits : Nat
  deriving DecidableEq, Repr

/-- Modelled from the spec: id assignment of the Graph Builder (§4.1) —
stable ids derived from file + qualified name. -/
def symbolId (file : String) (qualifiedName : Option String) (name : String) : String :=
  file ++ "::" ++ qualifiedName.getD name

/-- Modelled from the spec: symbol materialization of the Graph Builder
(§4.1) — every file gets a module symbol even if it defines nothing
externally visible, then the extracted symbols follow. -/
def buildSymbols (raws : List RawSymbol) : List Symbol :=
  (dedupFirst (raws.map (·.file))).map (fun f =>
    { id := symbolId f (some f) f, qualifiedName := some f, name := f,
      kind := "module", file := f, startLine := 0, endLine := 0,
      riskHits := 0 }) ++
  raws.map (fun r =>
    { id := symbolId r.file r.qualifiedName r.name,
      qualifiedName := r.qualifiedName, name := r.name, kind := r.kind,
      file := r.file, startLine := r.startLine, endLine := r.endLine,
      riskHits := r.riskHits })

/-- Modelled from the spec: the Graph Builder contract `build(...) →
Snapshot` (§4.1) — assemble the symbols, resolve the edge candidates, drop
unresolved ones; the cycle list is attached by the Cycle Detector
afterwards, so it starts empty. -/
def build (scanId repoId : String) (raws : List RawSymbol)
    (cands : List RawEdgeCandidate) : Snapshot :=
  let symbols := buildSymbols raws
  { scanId := scanId, repoId := repoId, symbols := symbols,
    edges := buildEdges symbols cands, cycles := [] }

/-! ## Impact Simulator (spec §4.5, backend source missing) -/

/-- Modelled from the spec: the error taxonomy of the core (§7) as far as
the simulate operation uses it. -/
inductive SimError where
  | NotFound
  | InvalidArgument
  deriving DecidableEq, Repr

/-- Modelled from the spec: the body of a `POST simulate-change` request —
optional seed file, optional seed symbol, depth limit. -/
structure SimRequest where
  file : Option String
  symbol : Option String
  depthLimit : Int
  deriving DecidableEq, Repr

/-- Modelled from the spec: an `ImpactReport` (§3), restricted to the fields
the claims address — affected symbol ids tagged with depth, affected files,
and the maximum depth reached. -/
structure ImpactReport where
  affectedSymbols : List (String × Nat)
  affectedFiles : List String
  maxDepthReached : Nat
  circularRisk : Bool
  deriving DecidableEq, Repr

/-- Modelled from the spec: reverse dependents of a symbol — the sources of
`calls`/`imports` edges whose target is the symbol ("who depends on me"). -/
def reverseDeps (s : Snapshot) (id : String) : List String :=
  (s.edges.filter (fun e =>
      (e.relation = "calls" ∨ e.relation = "imports") ∧ e.targetId = id)).map
    (·.sourceId)

/-- Modelled from the spec: the frontier-by-frontier reverse BFS of the
Impact Simulator (§4.5) — each symbol visited at most once (first-seen depth
wins), one round per depth unit, bounded by the remaining depth budget.
`visited` carries `(id, depth)` pairs in visit order. -/
def bfsAux (s : Snapshot) : Nat → Nat → List (String × Nat) → List String →
    List (String × Nat)
  | 0, _, visited, _ => visited
  | budget + 1, depth, visited, frontier =>
    let next := dedupFirst
      ((frontier.flatMap (reverseDeps s)).filter
        (fun id => visited.all (fun p => p.1 ≠ id)))
    if next.isEmpty then visited
    else
      bfsAux s budget (depth + 1)
        (visited ++ next.map (fun id => (id, depth + 1))) next

/-- Modelled from the spec: seed resolution of the Impact Simulator (§4.5) —
a seed file contributes all symbols defined in it at depth 0, a seed symbol
contributes just itself; `none` when the requested file/symbol does not
exist in the snapshot. -/
def resolveSeeds (s : Snapshot) (req : SimRequest) : Option (List String) :=
  match req.file with
  | some f =>
    let seeds := (s.symbols.filter (fun sym => sym.file = f)).map (·.id)
    if seeds.isEmpty then none else some seeds
  | none =>
    match req.symbol with
    | some nm =>
      match s.symbols.find? (fun sym => sym.name = nm) with
      | some sym => some [sym.id]
      | none => none
    | none => none

/-- Modelled from the spec: the traversal result for resolved seeds — the
visited set after at most `depthLimit` BFS rounds, seeds at depth 0. -/
def runImpact (s : Snapshot) (seeds : List String) (depthLimit : Nat) : ImpactReport :=
  let seeds := dedupFirst seeds
  let visited := bfsAux s depthLimit 0 (seeds.map (fun id => (id, 0))) seeds
  let affected := visited.filter (fun p => p.2 ≠ 0)
  { affectedSymbols := affected
    affectedFiles := dedupFirst (affected.filterMap (fun p =>
      (s.symbols.find? (fun sym => sym.id = p.1)).map (·.file)))
    maxDepthReached := (affected.map (·.2)).foldl max 0
    circularRisk := visited.any (fun p =>
      s.cycles.any (fun c => s.symbols.any (fun sym =>
        sym.id = p.1 ∧ c.names.contains (sym.qualifiedName.getD sym.name)))) }

/-- Modelled from the spec: the simulate operation (§4.5, §7) — fails with
`InvalidArgument` when neither file nor symbol is provided or the depth
limit is not positive (surfaced immediately), fails with `NotFound` when
the seed file/symbol does not exist in the snapshot, and otherwise runs the
bounded reverse BFS. -/
def simulate (s : Snapshot) (req : SimRequest) : Except SimError ImpactReport :=
  if req.file = none ∧ req.symbol = none then .error .InvalidArgument
  else if req.depthLimit ≤ 0 then .error .InvalidArgument
  else
    match resolveSeeds s req with
    | none => .error .NotFound
    | some seeds => .ok (runImpact s seeds req.depthLimit.toNat)

/-- The affected-symbol ids of a simulate outcome (empty on error). -/
def affectedOf (r : Except SimError ImpactReport) : List (String × Nat) :=
  match r with
  | .ok rep => rep.affectedSymbols
  | .error _ => []

/-! ## Health Scorer (spec §4.3, backend source missing) -/

/-- Modelled from the spec: the tunable weights of the Health Scorer (§4.3,
§9 open question) — "exact weights are configuration, not structure". -/
structure ScorerConfig where
  wLines : Nat
  wNesting : Nat
  wRiskHits : Nat
  wComplexity : Nat
  wCycles : Nat
  wImbalance : Nat
  topN : Nat
  deriving DecidableEq, Repr

/-- The files of a snapshot, in symbol insertion order. -/
def filesOfSnap (s : Snapshot) : List String :=
  dedupFirst (s.symbols.map (·.file))

/-- The symbols a snapshot holds for one file, in insertion order. -/
def symbolsOfFile (s : Snapshot) (f : String) : List Symbol :=
  s.symbols.filter (fun sym => sym.file = f)

/-- Line count of one symbol's span. -/
def symbolLines (sym : Symbol) : Nat :=
  sym.endLine - sym.startLine + 1

/-- Modelled from the spec: the nesting-depth proxy of a file (§4.3) — the
maximum symbol nesting within the file, read off the symbol spans: for each
symbol, how many other symbols of the file strictly contain its span. -/
def fileNesting (s : Snapshot) (f : String) : Nat :=
  ((symbolsOfFile s f).map (fun sym =>
    ((symbolsOfFile s f).filter (fun outer =>
      outer.startLine < sym.startLine ∧ sym.endLine < outer.endLine)).length)).foldl
    max 0

/-- Modelled from the spec: per-file complexity (§4.3) — a weighted sum of
line count, the nesting-depth proxy, and the risk-pattern hit count. -/
def fileComplexity (cfg : ScorerConfig) (s : Snapshot) (f : String) : Nat :=
  cfg.wLines * ((symbolsOfFile s f).map symbolLines).sum +
  cfg.wNesting * fileNesting s f +
  cfg.wRiskHits * ((symbolsOfFile s f).map (·.riskHits)).sum

/-- Total complexity across the snapshot's files. -/
def complexityTotal (cfg : ScorerConfig) (s : Snapshot) : Nat :=
  ((filesOfSnap s).map (fileComplexity cfg s)).sum

/-- Fan-in of a symbol: edges targeting it. -/
def fanIn (s : Snapshot) (id : String) : Nat :=
  (s.edges.filter (fun e => e.targetId = id)).length

/-- Fan-out of a symbol: edges leaving it. -/
def fanOut (s : Snapshot) (id : String) : Nat :=
  (s.edges.filter (fun e => e.sourceId = id)).length

/-- Modelled from the spec: fan-in/fan-out imbalance of the snapshot (§4.3). -/
def imbalance (s : Snapshot) : Nat :=
  (s.symbols.map (fun sym =>
    (Int.ofNat (fanIn s sym.id) - Int.ofNat (fanOut s sym.id)).natAbs)).sum

/-- Modelled from the spec: normalized complexity — total complexity
averaged over the files. -/
def normComplexity (cfg : ScorerConfig) (s : Snapshot) : Nat :=
  complexityTotal cfg s / max 1 (filesOfSnap s).length

/-- Modelled from the spec: the aggregate `riskScore` (§4.3) — a 0–100
clamped combination of normalized complexity, cycle membership count, and
fan-in/fan-out imbalance. -/
def riskScore (cfg : ScorerConfig) (s : Snapshot) : Nat :=
  min 100 (cfg.wComplexity * normComplexity cfg s +
           cfg.wCycles * s.cycles.length +
           cfg.wImbalance * imbalance s)

/-- Modelled from the spec: the Health Scorer output record (§4.3). -/
structure RepoHealthScore where
  riskScore : Nat
  complexityScore : Nat
  circularDependencies : Nat
  hotspots : List (String × Nat)
  deriving DecidableEq, Repr

/-- Modelled from the spec: hotspots (§4.3) — top-N files by per-file score,
ties broken by file path ascending. -/
def hotspots (cfg : ScorerConfig) (s : Snapshot) : List (String × Nat) :=
  (((filesOfSnap s).map (fun f => (f, fileComplexity cfg s f))).mergeSort
    (fun a b => b.2 < a.2 ∨ (a.2 = b.2 ∧ a.1 ≤ b.1))).take cfg.topN

/-- Modelled from the spec: the Health Scorer contract `score(snapshot)`
(§4.3). -/
def score (cfg : ScorerConfig) (s : Snapshot) : RepoHealthScore :=
  { riskScore := riskScore cfg s
    complexityScore := complexityTotal cfg s
    circularDependencies := s.cycles.length
    hotspots := hotspots cfg s }

/-! ## Version Diff Engine (spec §4.4, backend source missing) -/

/-- Cross-version identity of a symbol id: the qualified name (falling back
to the bare name) of the symbol it denotes (spec §6: cross-snapshot identity
by `(file, qualifiedName)`, not id). -/
def qnameOf (s : Snapshot) (id : String) : String :=
  match s.symbols.find? (fun sym => sym.id = id) with
  | some sym => sym.qualifiedName.getD sym.name
  | none => id

/-- Modelled from the spec: the per-file symbol signature used for change
detection (§4.4) — symbols matched by qualified name with their
`(startLine, endLine)` spans. -/
def symbolSig (s : Snapshot) (f : String) : List (String × Nat × Nat) :=
  (symbolsOfFile s f).map (fun sym =>
    (sym.qualifiedName.getD sym.name, sym.startLine, sym.endLine))

/-- The file a symbol id belongs to, if it resolves. -/
def fileOfId (s : Snapshot) (id : String) : Option String :=
  (s.symbols.find? (fun sym => sym.id = id)).map (·.file)

/-- Modelled from the spec: the signature of the edges touching a file
(§4.4), with endpoints identified cross-version by qualified name. -/
def edgeSig (s : Snapshot) (f : String) : List (String × String × String) :=
  (s.edges.filter (fun e =>
      fileOfId s e.sourceId = some f ∨ fileOfId s e.targetId = some f)).map
    (fun e => (qnameOf s e.sourceId, qnameOf s e.targetId, e.relation))

/-- Modelled from the spec: a `DiffReport` (§3), restricted to the fields
the claims address. -/
structure DiffReport where
  addedFiles : List String
  removedFiles : List String
  modifiedFiles : List String
  complexityDelta : Int
  riskDelta : Int
  dependencyChanges : List (String × String × String)
  deriving DecidableEq, Repr

/-- The cross-version signature of every edge of a snapshot. -/
def allEdgeSigs (s : Snapshot) : List (String × String × String) :=
  s.edges.map (fun e => (qnameOf s e.sourceId, qnameOf s e.targetId, e.relation))

/-- Modelled from the spec: the Version Diff Engine contract
`diff(base, head)` (§4.4) — added/removed files by presence, modified files
by changed symbol or touching-edge signature, aggregate deltas by
subtracting the Health Scorer results (head minus base, no
special-casing), and dependency changes as the symmetric difference of the
edge signatures. -/
def diff (cfg : ScorerConfig) (base head : Snapshot) : DiffReport :=
  let baseFiles := filesOfSnap base
  let headFiles := filesOfSnap head
  { addedFiles := headFiles.filter (fun f => f ∉ baseFiles)
    removedFiles := baseFiles.filter (fun f => f ∉ headFiles)
    modifiedFiles := headFiles.filter (fun f =>
      f ∈ baseFiles ∧
        (symbolSig base f ≠ symbolSig head f ∨ edgeSig base f ≠ edgeSig head f))
    complexityDelta :=
      (score cfg head).complexityScore - ((score cfg base).complexityScore : Int)
    riskDelta := (score cfg head).riskScore - ((score cfg base).riskScore : Int)
    dependencyChanges :=
      (allEdgeSigs head).filter (fun e => e ∉ allEdgeSigs base) ++
      (allEdgeSigs base).filter (fun e => e ∉ allEdgeSigs head) }

/-! ## Cycle Detector (spec §4.2, backend source missing) -/

/-- Modelled from the spec: the three-coloring DFS state (§4.2) — a color
marking per node (`1` = gray/on stack, `2` = black/done, absent = white),
the active DFS stack (most recent first), and the cycles found so far. -/
structure DfsState where
  colors : List (String × Nat)
  stack : List String
  cycles : List (List String)
  deriving DecidableEq, Repr

/-- The color of a node in a DFS state (`0` = white when never set; the most
recent marking wins). -/
def colorOf (st : DfsState) (id : String) : Nat :=
  ((st.colors.find? (fun p => p.1 = id)).map (·.2)).getD 0

mutual

/-- Modelled from the spec: the depth-first visit of one node (§4.2) — mark
it gray and push it, walk its successors, then mark it black and pop it.
`fuel` bounds the recursion depth (the DFS never nests deeper than the node
count, so `detectCycles` supplies ample fuel). -/
def dfsVisit (adj : String → List String) (fuel : Nat) (u : String)
    (st : DfsState) : DfsState :=
  match fuel with
  | 0 => st
  | fuel' + 1 =>
    if colorOf st u ≠ 0 then st
    else
      let st1 : DfsState :=
        { st with colors := (u, 1) :: st.colors, stack := u :: st.stack }
      let st2 := dfsNeighbors adj fuel' (adj u) st1
      { st2 with colors := (u, 2) :: st2.colors, stack := st2.stack.drop 1 }
termination_by (fuel, 0)

/-- Modelled from the spec: successor processing (§4.2) — a back-edge to a
gray node establishes a cycle, reconstructed by walking the active DFS stack
from the back-edge's target to the top; black nodes are skipped; white nodes
are visited recursively. -/
def dfsNeighbors (adj : String → List String) (fuel : Nat)
    (vs : List String) (st : DfsState) : DfsState :=
  match vs with
  | [] => st
  | v :: rest =>
    let st' :=
      if colorOf st v = 1 then
        { st with cycles :=
            (v :: (st.stack.takeWhile (fun x => x ≠ v)).reverse) :: st.cycles }
      else if colorOf st v = 2 then st
      else dfsVisit adj fuel v st
    dfsNeighbors adj fuel rest st'
termination_by (fuel, vs.length + 1)

end

/-- Modelled from the spec: one subgraph run of the Cycle Detector (§4.2) —
DFS over the subgraph induced by one relation, roots taken in symbol
insertion order (the spec's determinism tie-break), cycles reported in
discovery order. -/
def dfsRun (s : Snapshot) (rel : String) : List (List String) :=
  let adj := fun id =>
    (s.edges.filter (fun e => e.relation = rel ∧ e.sourceId = id)).map (·.targetId)
  let fuel := s.symbols.length + 1
  (s.symbols.foldl (fun st sym => dfsVisit adj fuel sym.id st)
    { colors := [], stack := [], cycles := [] }).cycles.reverse

/-- The minimum of a list of strings (first binding of the lexicographically
least value), `none` on the empty list. -/
def listMin : List String → Option String
  | [] => none
  | a :: rest =>
    match listMin rest with
    | none => some a
    | some b => some (if a ≤ b then a else b)

/-- Modelled from the spec: cycle canonicalization (§4.2) — rotate the cycle
to start at the lexicographically smallest qualified name. -/
def canonRotate (l : List String) : List String :=
  match listMin l with
  | none => []
  | some m => l.rotate (l.indexOf m)

/-- Canonicalize one cycle path. -/
def canonicalize (c : CyclePath) : CyclePath :=
  { c with names := canonRotate c.names }

/-- Modelled from the spec: the canonicalize-then-deduplicate pass of the
Cycle Detector's output (§4.2) — a cycle and its rotation are the same
cycle. -/
def canonDedup (cs : List CyclePath) : List CyclePath :=
  dedupFirst (cs.map canonicalize)

/-- Modelled from the spec: the raw (pre-canonicalization) cycles of a
snapshot — the import-subgraph run tagged `import` followed by the
call-subgraph run tagged `call` (§4.2). -/
def rawCycles (s : Snapshot) : List CyclePath :=
  (dfsRun s "imports").map (fun c => { names := c.map (qnameOf s), kind := "import" }) ++
  (dfsRun s "calls").map (fun c => { names := c.map (qnameOf s), kind := "call" })

/-- Modelled from the spec: the Cycle Detector contract
`detectCycles(snapshot) → CyclePath[]` (§4.2). -/
def detectCycles (s : Snapshot) : List CyclePath :=
  canonDedup (rawCycles s)

/-! ## Scan status and exposure (`dashboard/src/types/index.ts`,
`dashboard/src/components/RepoScanner.tsx`) -/

/-- The `ScanStatus` union type (`dashboard/src/types/index.ts` line 1):
`'pending' | 'scanning' | 'completed' | 'failed'`. -/
inductive ScanStatus where
  | pending
  | scanning
  | completed
  | failed
  deriving DecidableEq, Repr

/-- The string value of a scan status, as it appears on the wire and in the
source's comparisons. -/
def ScanStatus.str : ScanStatus → String
  | .pending => "pending"
  | .scanning => "scanning"
  | .completed => "completed"
  | .failed => "failed"

/-- The values of the `ScanStatus` union type
(`dashboard/src/types/index.ts` line 1). -/
def scanStatusValues : List String :=
  [ScanStatus.pending.str, ScanStatus.scanning.str,
   ScanStatus.completed.str, ScanStatus.failed.str]

/-- `statusIcon` from `RepoScanner.tsx` (source): the icon shown per scan
status, with a bullet default for anything else. -/
def statusIcon (status : String) : String :=
  if status = "pending" then "⏳"
  else if status = "scanning" then "🔍"
  else if status = "completed" then "✅"
  else if status = "failed" then "❌"
  else "•"

/-- The polling handler of `RepoScanner.tsx` (source) exposes a finished
scan to readers (calls `onScanComplete`) exactly when the polled status is
`'completed'`. -/
def exposeOnUpdate (status : ScanStatus) : Bool :=
  status = .completed

/-- The polling loop of `RepoScanner.tsx` (source) stops polling (treats the
status as terminal) exactly on `'completed'` and `'failed'`. -/
def isTerminalStatus (status : ScanStatus) : Bool :=
  status = .completed ∨ status = .failed

/-- Modelled from the spec: the status transitions of a snapshot build
(§3/§5), expressed over the status values the source actually declares
(`ScanStatus`): a pending scan starts scanning, a scanning build completes,
and a scanning build that fails or is aborted mid-way becomes failed. -/
inductive ScanStep : ScanStatus → ScanStatus → Prop where
  | start : ScanStep .pending .scanning
  | complete : ScanStep .scanning .completed
  | fail : ScanStep .scanning .failed

/-! ## Impact Simulator UI (`dashboard/src/components/ImpactSimulator.tsx`,
`dashboard/src/services/repoService.ts`) -/

/-- `DEPTH_OPTIONS` from `ImpactSimulator.tsx` (source line 44). -/
def DEPTH_OPTIONS : List Nat :=
  [1, 2, 3, 4, 5, 7, 10]

/-- The depth limit `ApiService.simulateChange` (source) sends in the
request body: `depth_limit: depthLimit ?? 5`. -/
def simulateChangeDepth (depthLimit : Option Int) : Int :=
  depthLimit.getD 5

/-- The result record of `transformGraph`. -/
structure TransformedGraph where
  nodes : List FlowNode
  edges : List FlowEdge
  cycleIds : List String
  deriving DecidableEq, Repr

/-- `transformGraph` (source): filter the symbols for the view mode, lay them
out, and filter/transform the edges. -/
def transformGraph (data : GraphResponse) (mode : ViewMode) : TransformedGraph :=
  { nodes := layoutNodes (filteredSymbols data mode) mode
    edges := transformEdges data mode
    cycleIds := cycleNodeIds data }

/-! ## Invariants and fixtures -/

/-- The snapshot invariant on the graph response (spec §3: every file has
exactly one module symbol): two module symbols of the same file coincide. -/
def oneModulePerFile (g : GraphResponse) : Prop :=
  ∀ s1 ∈ g.nodes, ∀ s2 ∈ g.nodes,
    s1.type = "module" → s2.type = "module" → s1.file = s2.file → s1 = s2

/-- Modelled from the spec: existence of the requested simulation seed in
the snapshot (§4.5) — the seed file contains at least one symbol, or the
seed symbol occurs by name. -/
def seedExists (s : Snapshot) (req : SimRequest) : Prop :=
  match req.file with
  | some f => ∃ sym ∈ s.symbols, sym.file = f
  | none =>
    match req.symbol with
    | some nm => ∃ sym ∈ s.symbols, sym.name = nm
    | none => False

/-- A small concrete snapshot used to witness the hypotheses of the
theorems below: two files, a module and a function each, with `a.py`'s
function calling `b.py`'s function and the modules importing each other. -/
def exSnap : Snapshot :=
  { scanId := "scan-1"
    repoId := "repo-1"
    symbols :=
      [{ id := "a.py::a", qualifiedName := some "a", name := "a",
         kind := "module", file := "a.py", startLine := 0, endLine := 20,
         riskHits := 0 },
       { id := "a.py::a.f", qualifiedName := some "a.f", name := "f",
         kind := "function", file := "a.py", startLine := 1, endLine := 10,
         riskHits := 1 },
       { id := "b.py::b", qualifiedName := some "b", name := "b",
         kind := "module", file := "b.py", startLine := 0, endLine := 30,
         riskHits := 0 },
       { id := "b.py::b.g", qualifiedName := some "b.g", name := "g",
         kind := "function", file := "b.py", startLine := 2, endLine := 12,
         riskHits := 0 }]
    edges :=
      [{ sourceId := "a.py::a", targetId := "b.py::b", relation := "imports" },
       { sourceId := "b.py::b", targetId := "a.py::a", relation := "imports" },
       { sourceId := "a.py::a.f", targetId := "b.py::b.g", relation := "calls" },
       { sourceId := "a.py::a", targetId := "a.py::a.f", relation := "defines" },
       { sourceId := "b.py::b", targetId := "b.py::b.g", relation := "defines" }]
    cycles := [{ names := ["a", "b"], kind := "import" }] }

/-- A simulate request over `exSnap` seeded at symbol `g`. -/
def exReq : SimRequest :=
  { file := none, symbol := some "g", depthLimit := 1 }

/-- A small concrete graph response used to witness the transform theorems:
two files whose modules import each other, plus a function and a raw
symbol of type import. -/
def exGraph : GraphResponse :=
  { nodes :=
      [{ id := "m1", name := "a", type := "module", file := "a.py",
         qualified_name := some "a", start_line := 0, end_line := 20 },
       { id := "f1", name := "f", type := "function", file := "a.py",
         qualified_name := some "a.f", start_line := 1, end_line := 10 },
       { id := "i1", name := "b", type := "import", file := "a.py",
         qualified_name := none, start_line := 1, end_line := 1 },
       { id := "m2", name := "b", type := "module", file := "b.py",
         qualified_name := some "b", start_line := 0, end_line := 30 }]
    edges :=
      [{ source_id := "m1", target_id := "m2", relation := "imports" },
       { source_id := "m2", target_id := "m1", relation := "imports" },
       { source_id := "f1", target_id := "m2", relation := "calls" }]
    circular_dependencies := [{ cycle := ["a", "b"] }]
    total_files := 2
    total_symbols := 4
    total_edges := 3 }

/-- A concrete scorer configuration for witnessing. -/
def exCfg : ScorerConfig :=
  { wLines := 1, wNesting := 2, wRiskHits := 3,
    wComplexity := 1, wCycles := 10, wImbalance := 1, topN := 5 }

/-- `exSnap` with one more cycle recorded and `a.f`'s span (hence `a.py`'s
complexity) enlarged — the "riskier" snapshot of the monotonicity witness. -/
def exSnapRiskier : Snapshot :=
  { exSnap with
    symbols :=
      [{ id := "a.py::a", qualifiedName := some "a", name := "a",
         kind := "module", file := "a.py", startLine := 0, endLine := 20,
         riskHits := 0 },
       { id := "a.py::a.f", qualifiedName := some "a.f", name := "f",
         kind := "function", file := "a.py", startLine := 1, endLine := 15,
         riskHits := 2 },
       { id := "b.py::b", qualifiedName := some "b", name := "b",
         kind := "module", file := "b.py", startLine := 0, endLine := 30,
         riskHits := 0 },
       { id := "b.py::b.g", qualifiedName := some "b.g", name := "g",
         kind := "function", file := "b.py", startLine := 2, endLine := 12,
         riskHits := 0 }]
    cycles := [{ names := ["a", "b"], kind := "import" },
               { names := ["f", "g"], kind := "call" }] }

/-! ## Theorems -/

/-- Claim C4: for every snapshot `s`, `diff(s, s)` yields zero added files,
zero removed files, zero modified files, zero complexity delta, and zero
risk delta, the deltas being head-minus-base differences of the per-snapshot
Health Scorer results with no special-casing. -/
theorem C4_self_diff_zero (cfg : ScorerConfig) (s : Snapshot) :
    (diff cfg s s).addedFiles = [] ∧ (diff cfg s s).removedFiles = [] ∧
    (diff cfg s s).modifiedFiles = [] ∧ (diff cfg s s).complexityDelta = 0 ∧
    (diff cfg s s).riskDelta = 0 := by
  refine ⟨?_, ?_, ?_, ?_, ?_⟩ <;> simp [diff, List.filter_eq_nil_iff]

/-- Claim C9, counterexample: the graph response the dashboard consumes does
not carry a `cycles` field — the consumers read `circular_dependencies`
plus the `total_*` fields — so the response's field set is not the claimed
`{nodes, edges, cycles}`. -/
theorem C9_counterexample :
    graphResponseFields ≠ specGraphFields ∧
    "cycles" ∉ graphResponseFields ∧
    "circular_dependencies" ∈ graphResponseFields ∧
    "total_files" ∈ graphResponseFields := by
  refine ⟨?_, ?_, ?_, ?_⟩ <;> decide

/-- Claim C9, amended: the graph operation's response carries the fields
`nodes`, `edges`, `circular_dependencies`, `total_files`, `total_symbols`
and `total_edges`; the graph consumers read the cycle list from
`circular_dependencies` (e.g. `GraphViewer.stats` counts it) and the
summary counters from the `total_*` fields. -/
theorem C9_graph_response_fields :
    graphResponseFields =
      ["nodes", "edges", "circular_dependencies",
       "total_files", "total_symbols", "total_edges"] ∧
    ∀ g : GraphResponse,
      (graphViewerStats g).files = g.total_files ∧
      (graphViewerStats g).symbols = g.total_symbols ∧
      (graphViewerStats g).edges = g.total_edges ∧
      (graphViewerStats g).cycles = g.circular_dependencies.length := by
  exact ⟨rfl, fun g => ⟨rfl, rfl, rfl, rfl⟩⟩

/-- Claim C8, counterexample: the source's status set
(`ScanStatus` in `dashboard/src/types/index.ts`) has no `building` and no
`ready` value — the intermediate and success statuses are `scanning` and
`completed` — so no status flag ever holds the claimed values. -/
theorem C8_counterexample :
    "building" ∉ scanStatusValues ∧ "ready" ∉ scanStatusValues ∧
    "scanning" ∈ scanStatusValues ∧ "completed" ∈ scanStatusValues := by
  refine ⟨?_, ?_, ?_, ?_⟩ <;> decide

/-- Claim C8, amended: a scan's status only ever transitions along
`pending → scanning → completed|failed` (an aborted build becoming
`failed`), the terminal statuses admit no further transition, and the
dashboard exposes a scan to readers (`onScanComplete`) only once its status
is `completed`. -/
theorem C8_status_lifecycle :
    (∀ a b : ScanStatus, ScanStep a b →
      (a = .pending ∧ b = .scanning) ∨
      (a = .scanning ∧ (b = .completed ∨ b = .failed))) ∧
    (∀ b : ScanStatus, ¬ ScanStep .completed b) ∧
    (∀ b : ScanStatus, ¬ ScanStep .failed b) ∧
    (∀ st : ScanStatus, exposeOnUpdate st = true → st = .completed) := by
  refine ⟨?_, ?_, ?_, ?_⟩
  · intro a b h
    cases h
    · exact Or.inl ⟨rfl, rfl⟩
    · exact Or.inr ⟨rfl, Or.inl rfl⟩
    · exact Or.inr ⟨rfl, Or.inr rfl⟩
  · intro b h
    cases h
  · intro b h
    cases h
  · intro st h
    simpa [exposeOnUpdate] using h

/-- Claim C8, witness: the lifecycle theorem applied to the concrete
transition out of `pending` and to the exposure predicate at `completed`. -/
theorem C8_status_lifecycle_witness :
    ((ScanStatus.pending = .pending ∧ ScanStatus.scanning = .scanning) ∨
      (ScanStatus.pending = .scanning ∧
        (ScanStatus.scanning = .completed ∨ ScanStatus.scanning = .failed))) ∧
    ScanStatus.completed = .completed :=
  ⟨C8_status_lifecycle.1 .pending .scanning ScanStep.start,
   C8_status_lifecycle.2.2.2 .completed (by decide)⟩

/-- Seed resolution fails exactly when the requested seed does not exist in
the snapshot. -/
theorem resolveSeeds_eq_none_iff (s : Snapshot) (req : SimRequest) :
    resolveSeeds s req = none ↔ ¬ seedExists s req := by
  unfold resolveSeeds seedExists
  match hf : req.file with
  | some f =>
    simp [List.isEmpty_iff, List.map_eq_nil_iff, List.filter_eq_nil_iff]
  | none =>
    match hs : req.symbol with
    | some nm =>
      cases hfind : s.symbols.find? (fun sym => sym.name = nm) with
      | some sym =>
        have hmem := List.mem_of_find?_eq_some hfind
        have hp := List.find?_some hfind
        simp only [decide_eq_true_eq] at hp
        simp only [hfind]
        simp
        exact ⟨sym, hmem, hp⟩
      | none =>
        have hall := List.find?_eq_none.mp hfind
        simp only [hfind]
        simp
        intro x hx
        simpa using hall x hx
    | none => simp

/-- Claim C5: `simulate` fails with `InvalidArgument` exactly when no seed
is provided or the depth limit is not positive, and fails with `NotFound`
exactly when the arguments are valid but the seed file/symbol does not
exist in the snapshot. -/
theorem C5_simulate_errors (s : Snapshot) (req : SimRequest) :
    (simulate s req = .error .InvalidArgument ↔
      (req.file = none ∧ req.symbol = none) ∨ req.depthLimit ≤ 0) ∧
    (simulate s req = .error .NotFound ↔
      ¬((req.file = none ∧ req.symbol = none) ∨ req.depthLimit ≤ 0) ∧
        ¬ seedExists s req) := by
  unfold simulate
  by_cases h1 : req.file = none ∧ req.symbol = none
  · simp [h1]
  · rw [if_neg h1]
    by_cases h2 : req.depthLimit ≤ 0
    · simp [h1, h2]
    · rw [if_neg h2]
      cases hr : resolveSeeds s req with
      | none =>
        have hse := (resolveSeeds_eq_none_iff s req).mp hr
        simp [h1, h2, hse]
      | some seeds =>
        have hse : seedExists s req := by
          by_contra hn
          rw [← resolveSeeds_eq_none_iff s req] at hn
          rw [hr] at hn
          exact Option.noConfusion hn
        simp [h1, h2, hse]

/-- Claim C6: the dashboard's simulate request defaults the depth limit to 5
when none is chosen, the UI offers exactly the depth set {1,2,3,4,5,7,10},
and the core accepts any positive depth limit (never rejecting such a
request as `InvalidArgument`). -/
theorem C6_depth_limit_surface (s : Snapshot) (req : SimRequest) :
    simulateChangeDepth none = 5 ∧
    DEPTH_OPTIONS = [1, 2, 3, 4, 5, 7, 10] ∧
    (0 < req.depthLimit → (req.file ≠ none ∨ req.symbol ≠ none) →
      simulate s req ≠ .error .InvalidArgument) := by
  refine ⟨rfl, rfl, ?_⟩
  intro hd hseed
  unfold simulate
  have h1 : ¬ (req.file = none ∧ req.symbol = none) := by
    rcases hseed with h | h
    · exact fun hc => h hc.1
    · exact fun hc => h hc.2
  rw [if_neg h1, if_neg (by omega : ¬ req.depthLimit ≤ 0)]
  cases resolveSeeds s req with
  | none => simp
  | some seeds => simp

/-- Claim C6, witness: the surface theorem applied to the concrete request
`exReq` (positive depth, symbol seed) over `exSnap`. -/
theorem C6_depth_limit_surface_witness :
    0 < exReq.depthLimit ∧ (exReq.file ≠ none ∨ exReq.symbol ≠ none) ∧
    simulate exSnap exReq ≠ .error .InvalidArgument :=
  ⟨by decide, by decide,
   (C6_depth_limit_surface exSnap exReq).2.2 (by decide) (by decide)⟩

/-- Membership in the accumulator-style deduplication. -/
theorem mem_dedupFirstAux_iff {α : Type} [DecidableEq α] {seen l : List α}
    {x : α} : x ∈ dedupFirstAux seen l ↔ x ∈ l ∧ x ∉ seen := by
  induction l generalizing seen with
  | nil => simp [dedupFirstAux]
  | cons a rest ih =>
    unfold dedupFirstAux
    by_cases ha : a ∈ seen
    · rw [if_pos ha, ih]
      constructor
      · exact fun ⟨h1, h2⟩ => ⟨List.mem_cons_of_mem _ h1, h2⟩
      · rintro ⟨h1, h2⟩
        rcases List.mem_cons.mp h1 with rfl | h1'
        · exact absurd ha h2
        · exact ⟨h1', h2⟩
    · rw [if_neg ha]
      constructor
      · intro h
        rcases List.mem_cons.mp h with rfl | h'
        · exact ⟨List.mem_cons_self _ _, ha⟩
        · obtain ⟨h1, h2⟩ := ih.mp h'
          exact ⟨List.mem_cons_of_mem _ h1,
            fun hs => h2 (List.mem_cons_of_mem _ hs)⟩
      · rintro ⟨h1, h2⟩
        rcases List.mem_cons.mp h1 with rfl | h1'
        · exact List.mem_cons_self _ _
        · by_cases hxa : x = a
          · subst hxa
            exact List.mem_cons_self _ _
          · exact List.mem_cons_of_mem _
              (ih.mpr ⟨h1', fun hs =>
                (List.mem_cons.mp hs).elim hxa h2⟩)

/-- Membership in the first-occurrence deduplication. -/
theorem mem_dedupFirst_iff {α : Type} [DecidableEq α] {l : List α} {x : α} :
    x ∈ dedupFirst l ↔ x ∈ l := by
  unfold dedupFirst
  rw [mem_dedupFirstAux_iff]
  simp

/-- A file occurs in `filesInOrder` exactly when some symbol lives in it. -/
theorem mem_filesInOrder {symbols : List SymbolNode} {f : String} :
    f ∈ filesInOrder symbols ↔ ∃ s ∈ symbols, s.file = f := by
  unfold filesInOrder
  rw [mem_dedupFirst_iff]
  simp [List.mem_map]

/-- The ids of the stacked child rows are the ids of the child symbols. -/
theorem layoutChildren_ids (fileX : Int) :
    ∀ (childY : Int) (l : List SymbolNode),
      (layoutChildren fileX childY l).map (·.id) = l.map (·.id) := by
  intro childY l
  induction l generalizing childY with
  | nil => rfl
  | cons sym rest ih =>
    simp only [layoutChildren, List.map_cons]
    rw [ih]

/-- The ids a file group lays out do not depend on its horizontal offset. -/
theorem layoutGroup_ids_const (mode : ViewMode) (x x' : Int) (f : String)
    (syms : List SymbolNode) :
    (layoutGroup mode x f syms).map (·.id) =
      (layoutGroup mode x' f syms).map (·.id) := by
  cases mode with
  | file => rfl
  | symbol =>
    simp only [layoutGroup]
    cases syms.find? (fun s => s.type = "module") with
    | none => simp [layoutChildren_ids]
    | some m => simp [layoutChildren_ids]

/-- The ids of the laid-out nodes, group by group. -/
theorem layoutNodesAux_ids (mode : ViewMode) :
    ∀ (x : Int) (gs : List (String × List SymbolNode)),
      (layoutNodesAux mode x gs).map (·.id) =
        gs.flatMap (fun g => (layoutGroup mode 0 g.1 g.2).map (·.id)) := by
  intro x gs
  induction gs generalizing x with
  | nil => rfl
  | cons g rest ih =>
    simp only [layoutNodesAux, List.flatMap_cons, List.map_append]
    rw [ih, layoutGroup_ids_const mode x 0]

/-- Every laid-out node comes from some file group. -/
theorem mem_layoutNodesAux (mode : ViewMode) :
    ∀ (x : Int) (gs : List (String × List SymbolNode)) (n : FlowNode),
      n ∈ layoutNodesAux mode x gs →
        ∃ g ∈ gs, ∃ x', n ∈ layoutGroup mode x' g.1 g.2 := by
  intro x gs
  induction gs generalizing x with
  | nil => intro n h; cases h
  | cons g rest ih =>
    intro n h
    rcases List.mem_append.mp h with h' | h'
    · exact ⟨g, List.mem_cons_self _ _, x, h'⟩
    · obtain ⟨g', hg', x', hx'⟩ := ih _ n h'
      exact ⟨g', List.mem_cons_of_mem _ hg', x', hx'⟩

/-- In file view every symbol of an all-module, one-module-per-file list is
laid out (its id appears among the node ids). -/
theorem mem_layout_ids_file (syms : List SymbolNode)
    (hall : ∀ s ∈ syms, s.type = "module")
    (huniq : ∀ s1 ∈ syms, ∀ s2 ∈ syms, s1.file = s2.file → s1 = s2) :
    ∀ sym ∈ syms, sym.id ∈ (layoutNodes syms .file).map (·.id) := by
  intro sym hsym
  unfold layoutNodes
  rw [layoutNodesAux_ids]
  have hf : sym.file ∈ filesInOrder syms := mem_filesInOrder.mpr ⟨sym, hsym, rfl⟩
  refine List.mem_flatMap.mpr
    ⟨(sym.file, syms.filter (fun s => s.file = sym.file)), ?_, ?_⟩
  · unfold groupsByFile
    exact List.mem_map.mpr ⟨sym.file, hf, rfl⟩
  · have hsymG : sym ∈ syms.filter (fun s => s.file = sym.file) :=
      List.mem_filter.mpr ⟨hsym, by simp⟩
    have hfind : ((syms.filter (fun s => s.file = sym.file)).find?
        (fun s => s.type = "module")).isSome := by
      rw [List.find?_isSome]
      exact ⟨sym, hsymG, by simp [hall sym hsym]⟩
    obtain ⟨m, hm⟩ := Option.isSome_iff_exists.mp hfind
    have hmG := List.mem_of_find?_eq_some hm
    have hmmem : m ∈ syms := (List.mem_filter.mp hmG).1
    have hmfile : m.file = sym.file := by
      have := (List.mem_filter.mp hmG).2
      simpa using this
    have heq : sym = m := huniq sym hsym m hmmem (hmfile.symm)
    simp only [layoutGroup, hm]
    simp [heq]

/-- In symbol view every non-import symbol of a one-module-per-file list is
laid out (its id appears among the node ids). -/
theorem mem_layout_ids_symbol (syms : List SymbolNode)
    (hnoimp : ∀ s ∈ syms, s.type ≠ "import")
    (huniq : ∀ s1 ∈ syms, ∀ s2 ∈ syms,
      s1.type = "module" → s2.type = "module" → s1.file = s2.file → s1 = s2) :
    ∀ sym ∈ syms, sym.id ∈ (layoutNodes syms .symbol).map (·.id) := by
  intro sym hsym
  unfold layoutNodes
  rw [layoutNodesAux_ids]
  have hf : sym.file ∈ filesInOrder syms := mem_filesInOrder.mpr ⟨sym, hsym, rfl⟩
  refine List.mem_flatMap.mpr
    ⟨(sym.file, syms.filter (fun s => s.file = sym.file)), ?_, ?_⟩
  · unfold groupsByFile
    exact List.mem_map.mpr ⟨sym.file, hf, rfl⟩
  · have hsymG : sym ∈ syms.filter (fun s => s.file = sym.file) :=
      List.mem_filter.mpr ⟨hsym, by simp⟩
    by_cases hmod : sym.type = "module"
    · have hfind : ((syms.filter (fun s => s.file = sym.file)).find?
          (fun s => s.type = "module")).isSome := by
        rw [List.find?_isSome]
        exact ⟨sym, hsymG, by simp [hmod]⟩
      obtain ⟨m, hm⟩ := Option.isSome_iff_exists.mp hfind
      have hmG := List.mem_of_find?_eq_some hm
      have hmmem : m ∈ syms := (List.mem_filter.mp hmG).1
      have hmtype : m.type = "module" := by
        have := List.find?_some hm
        simpa using this
      have hmfile : m.file = sym.file := by
        have := (List.mem_filter.mp hmG).2
        simpa using this
      have heq : sym = m := huniq sym hsym m hmmem hmod hmtype hmfile.symm
      simp only [layoutGroup, hm]
      simp [heq]
    · have hchild : sym ∈ (syms.filter (fun s => s.file = sym.file)).filter
          (fun s => s.type ≠ "module" ∧ s.type ≠ "import") :=
        List.mem_filter.mpr ⟨hsymG, by simp [hmod, hnoimp sym hsym]⟩
      simp only [layoutGroup]
      cases (syms.filter (fun s => s.file = sym.file)).find?
          (fun s => s.type = "module") with
      | none =>
        simp only [List.nil_append, layoutChildren_ids]
        exact List.mem_map.mpr ⟨sym, hchild, rfl⟩
      | some m =>
        simp only [List.map_append, List.mem_append, layoutChildren_ids]
        exact Or.inr (List.mem_map.mpr ⟨sym, hchild, rfl⟩)

/-- The transformed edges keep the sources of the filtered edges. -/
theorem transformEdges_sources (data : GraphResponse) (mode : ViewMode) :
    (transformEdges data mode).map (·.source) =
      (filteredEdges data mode).map (·.source_id) := by
  conv_rhs => rw [← List.enum_map_snd (filteredEdges data mode)]
  unfold transformEdges
  rw [List.mapIdx_eq_enum_map, List.map_map, List.map_map]
  rfl

/-- The transformed edges keep the targets of the filtered edges. -/
theorem transformEdges_targets (data : GraphResponse) (mode : ViewMode) :
    (transformEdges data mode).map (·.target) =
      (filteredEdges data mode).map (·.target_id) := by
  conv_rhs => rw [← List.enum_map_snd (filteredEdges data mode)]
  unfold transformEdges
  rw [List.mapIdx_eq_enum_map, List.map_map, List.map_map]
  rfl

/-- Every filtered edge has both endpoints among the retained symbol ids. -/
theorem filteredEdges_endpoints (data : GraphResponse) (mode : ViewMode)
    (e : GraphEdge) (he : e ∈ filteredEdges data mode) :
    e.source_id ∈ nodeIdSet data mode ∧ e.target_id ∈ nodeIdSet data mode := by
  have hp := (List.mem_filter.mp he).2
  cases mode with
  | file =>
    simp only [decide_eq_true_eq] at hp
    exact ⟨hp.2.1, hp.2.2⟩
  | symbol =>
    simp only [decide_eq_true_eq] at hp
    exact hp

/-- Every retained symbol id appears among the laid-out node ids, provided
each file holds at most one module symbol. -/
theorem nodeIdSet_subset_layout (g : GraphResponse) (mode : ViewMode)
    (huniq : oneModulePerFile g) :
    ∀ i ∈ nodeIdSet g mode,
      i ∈ (layoutNodes (filteredSymbols g mode) mode).map (·.id) := by
  intro i hi
  obtain ⟨sym, hsym, hid⟩ := List.mem_map.mp hi
  subst hid
  cases mode with
  | file =>
    refine mem_layout_ids_file (filteredSymbols g .file) ?_ ?_ sym hsym
    · intro s hs
      have := (List.mem_filter.mp hs).2
      simpa using this
    · intro s1 h1 s2 h2 hfile
      have hm1 : s1.type = "module" := by
        have := (List.mem_filter.mp h1).2
        simpa using this
      have hm2 : s2.type = "module" := by
        have := (List.mem_filter.mp h2).2
        simpa using this
      exact huniq s1 (List.mem_filter.mp h1).1 s2 (List.mem_filter.mp h2).1
        hm1 hm2 hfile
  | symbol =>
    refine mem_layout_ids_symbol (filteredSymbols g .symbol) ?_ ?_ sym hsym
    · intro s hs
      have := (List.mem_filter.mp hs).2
      simpa using this
    · intro s1 h1 s2 h2 hm1 hm2 hfile
      exact huniq s1 (List.mem_filter.mp h1).1 s2 (List.mem_filter.mp h2).1
        hm1 hm2 hfile

/-- A successful name resolution yields the id of a snapshot symbol. -/
theorem resolveName_mem {symbols : List Symbol} {file name i : String}
    (h : resolveName symbols file name = some i) :
    ∃ sym ∈ symbols, sym.id = i := by
  unfold resolveName at h
  cases h1 : symbols.find? (fun s => s.qualifiedName = some name ∧ s.file = file) with
  | some s =>
    simp only [h1, Option.some.injEq] at h
    exact ⟨s, List.mem_of_find?_eq_some h1, h⟩
  | none =>
    simp only [h1] at h
    cases h2 : symbols.find? (fun s => s.name = name ∧ s.file = file) with
    | some s =>
      simp only [h2, Option.some.injEq] at h
      exact ⟨s, List.mem_of_find?_eq_some h2, h⟩
    | none =>
      simp only [h2] at h
      cases h3 : symbols.filter (fun s => s.name = name) with
      | nil => simp [h3] at h
      | cons s rest =>
        cases rest with
        | nil =>
          simp only [h3, Option.some.injEq] at h
          have hs : s ∈ symbols := by
            have : s ∈ symbols.filter (fun s => s.name = name) := by
              rw [h3]
              exact List.mem_cons_self _ _
            exact (List.mem_filter.mp this).1
          exact ⟨s, hs, h⟩
        | cons s2 rest2 => simp [h3] at h

/-- `listMin` returns `none` exactly on the empty list. -/
theorem listMin_eq_none {l : List String} : listMin l = none ↔ l = [] := by
  cases l with
  | nil => simp [listMin]
  | cons a rest => cases h : listMin rest <;> simp [listMin, h]

/-- The value `listMin` returns is a member of the list. -/
theorem listMin_mem {l : List String} {m : String} (h : listMin l = some m) :
    m ∈ l := by
  induction l generalizing m with
  | nil => simp [listMin] at h
  | cons a rest ih =>
    cases hr : listMin rest with
    | none =>
      simp only [listMin, hr, Option.some.injEq] at h
      exact h ▸ List.mem_cons_self a rest
    | some b =>
      simp only [listMin, hr, Option.some.injEq] at h
      by_cases hab : a ≤ b
      · rw [if_pos hab] at h
        exact h ▸ List.mem_cons_self a rest
      · rw [if_neg hab] at h
        exact h ▸ List.mem_cons_of_mem a (ih hr)

/-- The value `listMin` returns bounds every member from below. -/
theorem listMin_le {l : List String} {m : String} (h : listMin l = some m) :
    ∀ x ∈ l, m ≤ x := by
  induction l generalizing m with
  | nil => simp [listMin] at h
  | cons a rest ih =>
    intro x hx
    cases hr : listMin rest with
    | none =>
      simp only [listMin, hr, Option.some.injEq] at h
      subst h
      have hrest : rest = [] := listMin_eq_none.mp hr
      subst hrest
      have hxa : x = a := List.mem_singleton.mp hx
      subst hxa
      exact le_refl _
    | some b =>
      simp only [listMin, hr, Option.some.injEq] at h
      subst h
      rcases List.mem_cons.mp hx with rfl | hx'
      · by_cases hab : x ≤ b
        · rw [if_pos hab]
        · rw [if_neg hab]
          exact le_of_not_le hab
      · have hbx := ih hr x hx'
        by_cases hab : a ≤ b
        · rw [if_pos hab]
          exact le_trans hab hbx
        · rw [if_neg hab]
          exact hbx

/-- A member bounding the whole list from below is the `listMin`. -/
theorem listMin_eq_some {l : List String} {m : String} (hm : m ∈ l)
    (hle : ∀ x ∈ l, m ≤ x) : listMin l = some m := by
  induction l with
  | nil => cases hm
  | cons a rest ih =>
    cases hr : listMin rest with
    | none =>
      have hrest : rest = [] := listMin_eq_none.mp hr
      subst hrest
      have hma : m = a := List.mem_singleton.mp hm
      subst hma
      rfl
    | some b =>
      have hbmem := listMin_mem hr
      have hble := listMin_le hr
      simp only [listMin, hr, Option.some.injEq]
      rcases List.mem_cons.mp hm with rfl | hm'
      · have hab : m ≤ b := hle b (List.mem_cons_of_mem _ hbmem)
        rw [if_pos hab]
      · have h1 : m ≤ b := hle b (List.mem_cons_of_mem _ hbmem)
        have h2 : b ≤ m := hble m hm'
        have hbm : b = m := le_antisymm h2 h1
        subst hbm
        have hma : b ≤ a := hle a (List.mem_cons_self _ _)
        by_cases hab : a ≤ b
        · rw [if_pos hab]
          exact le_antisymm hab hma
        · rw [if_neg hab]

/-- The canonical rotation starts at the minimal name. -/
theorem canonRotate_head {l : List String} {m : String} (h : listMin l = some m) :
    canonRotate l = m :: (l.drop (l.indexOf m + 1) ++ l.take (l.indexOf m)) := by
  have hmem := listMin_mem h
  have hidx : l.indexOf m < l.length := List.indexOf_lt_length.mpr hmem
  simp only [canonRotate, h]
  rw [List.rotate_eq_drop_append_take hidx.le, List.drop_eq_getElem_cons hidx,
    List.getElem_indexOf hidx]
  simp

/-- Canonical rotation is idempotent: a cycle already rotated to its minimal
name is left unchanged. -/
theorem canonRotate_idem (l : List String) :
    canonRotate (canonRotate l) = canonRotate l := by
  cases h : listMin l with
  | none =>
    have hl : l = [] := listMin_eq_none.mp h
    subst hl
    simp [canonRotate, listMin]
  | some m =>
    have ht := canonRotate_head h
    rw [ht]
    have hmem : ∀ x, x ∈ m :: (l.drop (l.indexOf m + 1) ++ l.take (l.indexOf m)) ↔ x ∈ l := by
      intro x
      rw [← ht]
      simp only [canonRotate, h]
      exact List.mem_rotate
    have hminr : listMin (m :: (l.drop (l.indexOf m + 1) ++ l.take (l.indexOf m))) = some m :=
      listMin_eq_some (List.mem_cons_self _ _)
        (fun x hx => listMin_le h x ((hmem x).mp hx))
    simp only [canonRotate, hminr]
    rw [List.indexOf_cons_self, List.rotate_zero]

/-- Members of the deduplicated list are members of the input not already
seen. -/
theorem mem_of_mem_dedupFirstAux {α : Type} [DecidableEq α] {seen l : List α}
    {x : α} (h : x ∈ dedupFirstAux seen l) : x ∈ l ∧ x ∉ seen := by
  induction l generalizing seen with
  | nil => simp [dedupFirstAux] at h
  | cons a rest ih =>
    unfold dedupFirstAux at h
    by_cases ha : a ∈ seen
    · rw [if_pos ha] at h
      obtain ⟨h1, h2⟩ := ih h
      exact ⟨List.mem_cons_of_mem _ h1, h2⟩
    · rw [if_neg ha] at h
      rcases List.mem_cons.mp h with rfl | h'
      · exact ⟨List.mem_cons_self _ _, ha⟩
      · obtain ⟨h1, h2⟩ := ih h'
        exact ⟨List.mem_cons_of_mem _ h1,
          fun hs => h2 (List.mem_cons_of_mem _ hs)⟩

/-- Deduplication leaves a duplicate-free, seen-disjoint list unchanged. -/
theorem dedupFirstAux_eq_self {α : Type} [DecidableEq α] {seen l : List α}
    (hnd : l.Nodup) (hdisj : ∀ x ∈ l, x ∉ seen) : dedupFirstAux seen l = l := by
  induction l generalizing seen with
  | nil => rfl
  | cons a rest ih =>
    unfold dedupFirstAux
    rw [if_neg (hdisj a (List.mem_cons_self a rest))]
    congr 1
    refine ih (List.Nodup.of_cons hnd) ?_
    intro x hx hmem
    rcases List.mem_cons.mp hmem with rfl | hseen
    · exact (List.nodup_cons.mp hnd).1 hx
    · exact hdisj x (List.mem_cons_of_mem _ hx) hseen

/-- The deduplicated list has no duplicates. -/
theorem nodup_dedupFirstAux {α : Type} [DecidableEq α] (seen l : List α) :
    (dedupFirstAux seen l).Nodup := by
  induction l generalizing seen with
  | nil => exact List.nodup_nil
  | cons a rest ih =>
    unfold dedupFirstAux
    by_cases ha : a ∈ seen
    · rw [if_pos ha]
      exact ih seen
    · rw [if_neg ha]
      refine List.nodup_cons.mpr ⟨?_, ih (a :: seen)⟩
      intro hmem
      exact (mem_of_mem_dedupFirstAux hmem).2 (List.mem_cons_self a seen)

/-- First-occurrence deduplication is idempotent. -/
theorem dedupFirst_idem {α : Type} [DecidableEq α] (l : List α) :
    dedupFirst (dedupFirst l) = dedupFirst l := by
  unfold dedupFirst
  exact dedupFirstAux_eq_self (nodup_dedupFirstAux [] l)
    (fun x _ h => absurd h (List.not_mem_nil x))

/-- Cycle canonicalization is idempotent. -/
theorem canonicalize_idem (c : CyclePath) :
    canonicalize (canonicalize c) = canonicalize c := by
  unfold canonicalize
  simp [canonRotate_idem]

/-- Claim C1: no dangling edges — the Graph Builder only emits edges whose
endpoints resolve to symbols of the built snapshot (unresolved candidates
are dropped), and `transformGraph` only returns edges whose endpoints are
ids of returned nodes, in either view mode, for any response obeying the
one-module-per-file snapshot invariant. -/
theorem C1_no_dangling_edges :
    (∀ (scanId repoId : String) (raws : List RawSymbol)
        (cands : List RawEdgeCandidate),
      ∀ e ∈ (build scanId repoId raws cands).edges,
        (∃ sym ∈ (build scanId repoId raws cands).symbols, sym.id = e.sourceId) ∧
        (∃ sym ∈ (build scanId repoId raws cands).symbols, sym.id = e.targetId)) ∧
    (∀ (g : GraphResponse) (mode : ViewMode), oneModulePerFile g →
      ∀ e ∈ (transformGraph g mode).edges,
        e.source ∈ (transformGraph g mode).nodes.map (·.id) ∧
        e.target ∈ (transformGraph g mode).nodes.map (·.id)) := by
  constructor
  · intro scanId repoId raws cands e he
    simp only [build, buildEdges] at he ⊢
    obtain ⟨c, _, hres⟩ := List.mem_filterMap.mp he
    cases hsrc : resolveName (buildSymbols raws) c.sourceFile c.sourceName with
    | none => simp [hsrc] at hres
    | some src =>
      cases htgt : resolveName (buildSymbols raws) c.sourceFile c.targetName with
      | none => simp [hsrc, htgt] at hres
      | some tgt =>
        simp only [hsrc, htgt, Option.some.injEq] at hres
        subst hres
        exact ⟨resolveName_mem hsrc, resolveName_mem htgt⟩
  · intro g mode hO e he
    have hs : e.source ∈ (transformEdges g mode).map (·.source) :=
      List.mem_map_of_mem _ he
    have ht : e.target ∈ (transformEdges g mode).map (·.target) :=
      List.mem_map_of_mem _ he
    rw [transformEdges_sources] at hs
    rw [transformEdges_targets] at ht
    obtain ⟨es, hes, hse⟩ := List.mem_map.mp hs
    obtain ⟨et, het, hte⟩ := List.mem_map.mp ht
    have h1 : e.source ∈ nodeIdSet g mode :=
      hse ▸ (filteredEdges_endpoints g mode es hes).1
    have h2 : e.target ∈ nodeIdSet g mode :=
      hte ▸ (filteredEdges_endpoints g mode et het).2
    exact ⟨nodeIdSet_subset_layout g mode hO _ h1,
      nodeIdSet_subset_layout g mode hO _ h2⟩

/-- Claim C1, witness: in file view of the concrete response `exGraph`
(which satisfies the one-module-per-file invariant) the first imports edge
is returned and both of its endpoints are returned node ids. -/
theorem C1_no_dangling_edges_witness :
    oneModulePerFile exGraph ∧
    ({ id := "e-0", source := "m1", target := "m2", label := "imports",
       animated := true } : FlowEdge) ∈ (transformGraph exGraph .file).edges ∧
    ("m1" ∈ (transformGraph exGraph .file).nodes.map (·.id) ∧
     "m2" ∈ (transformGraph exGraph .file).nodes.map (·.id)) := by
  refine ⟨by unfold oneModulePerFile; decide, by decide, ?_⟩
  exact C1_no_dangling_edges.2 exGraph .file (by unfold oneModulePerFile; decide)
    { id := "e-0", source := "m1", target := "m2", label := "imports",
      animated := true } (by decide)

/-- Claim C10: view-mode filtering of `transformGraph` — file view returns
only module nodes (each backing a module symbol of the response) and
exactly the `imports` edges between retained module ids; symbol view
returns exactly the non-import symbols (given the one-module-per-file
invariant) and exactly the edges with both endpoints retained. -/
theorem C10_view_mode_filtering (g : GraphResponse) (huniq : oneModulePerFile g) :
    (∀ n ∈ (transformGraph g .file).nodes, n.symbolType = "module" ∧
      ∃ s ∈ g.nodes, s.type = "module" ∧ n.id = s.id) ∧
    (∀ e : GraphEdge, e ∈ filteredEdges g .file ↔
      e ∈ g.edges ∧ e.relation = "imports" ∧
        e.source_id ∈ nodeIdSet g .file ∧ e.target_id ∈ nodeIdSet g .file) ∧
    (∀ i : String, i ∈ (transformGraph g .symbol).nodes.map (·.id) ↔
      ∃ s ∈ g.nodes, s.type ≠ "import" ∧ s.id = i) ∧
    (∀ e : GraphEdge, e ∈ filteredEdges g .symbol ↔
      e ∈ g.edges ∧ e.source_id ∈ nodeIdSet g .symbol ∧
        e.target_id ∈ nodeIdSet g .symbol) := by
  refine ⟨?_, ?_, ?_, ?_⟩
  · intro n hn
    obtain ⟨gp, hg, x', hng⟩ := mem_layoutNodesAux .file 0
      (groupsByFile (filteredSymbols g .file)) n hn
    obtain ⟨f0, hf0, hpair⟩ := List.mem_map.mp hg
    rw [← hpair] at hng
    dsimp only at hng
    obtain ⟨s0, hs0, hs0f⟩ := mem_filesInOrder.mp hf0
    have hs0G : s0 ∈ (filteredSymbols g .file).filter (fun s => s.file = f0) :=
      List.mem_filter.mpr ⟨hs0, by simp [hs0f]⟩
    have hs0mod : s0.type = "module" := by
      have := (List.mem_filter.mp hs0).2
      simpa using this
    have hfind : (((filteredSymbols g .file).filter (fun s => s.file = f0)).find?
        (fun s => s.type = "module")).isSome := by
      rw [List.find?_isSome]
      exact ⟨s0, hs0G, by simp [hs0mod]⟩
    obtain ⟨m, hm⟩ := Option.isSome_iff_exists.mp hfind
    have hmG := List.mem_of_find?_eq_some hm
    have hmFS : m ∈ filteredSymbols g .file := (List.mem_filter.mp hmG).1
    have hmnodes : m ∈ g.nodes := (List.mem_filter.mp hmFS).1
    have hmmod : m.type = "module" := by
      have := (List.mem_filter.mp hmFS).2
      simpa using this
    simp only [layoutGroup, hm, Option.map_some', Option.getD_some,
      List.mem_singleton] at hng
    subst hng
    exact ⟨rfl, m, hmnodes, hmmod, rfl⟩
  · intro e
    simp only [filteredEdges, List.mem_filter, decide_eq_true_eq]
  · intro i
    constructor
    · intro hi
      obtain ⟨n, hn, hni⟩ := List.mem_map.mp hi
      obtain ⟨gp, hg, x', hng⟩ := mem_layoutNodesAux .symbol 0
        (groupsByFile (filteredSymbols g .symbol)) n hn
      obtain ⟨f0, hf0, hpair⟩ := List.mem_map.mp hg
      rw [← hpair] at hng
      dsimp only at hng
      simp only [layoutGroup] at hng
      have hchild : ∀ hnC : n ∈ layoutChildren x' 80
          (((filteredSymbols g .symbol).filter (fun s => s.file = f0)).filter
            (fun s => s.type ≠ "module" ∧ s.type ≠ "import")),
          ∃ s ∈ g.nodes, s.type ≠ "import" ∧ s.id = i := by
        intro hnC
        have hid : n.id ∈ (layoutChildren x' 80
            (((filteredSymbols g .symbol).filter (fun s => s.file = f0)).filter
              (fun s => s.type ≠ "module" ∧ s.type ≠ "import"))).map (·.id) :=
          List.mem_map_of_mem _ hnC
        rw [layoutChildren_ids] at hid
        obtain ⟨s, hsC, hsid⟩ := List.mem_map.mp hid
        have hsF : s ∈ filteredSymbols g .symbol :=
          (List.mem_filter.mp (List.mem_filter.mp hsC).1).1
        refine ⟨s, (List.mem_filter.mp hsF).1, ?_, by rw [← hni, hsid]⟩
        have := (List.mem_filter.mp hsF).2
        simpa using this
      cases hm : ((filteredSymbols g .symbol).filter (fun s => s.file = f0)).find?
          (fun s => s.type = "module") with
      | none =>
        rw [hm] at hng
        simp only [List.nil_append] at hng
        exact hchild hng
      | some m =>
        rw [hm] at hng
        rcases List.mem_append.mp hng with hleft | hright
        · dsimp only at hleft
          have hn' := List.mem_singleton.mp hleft
          have hmF : m ∈ filteredSymbols g .symbol :=
            (List.mem_filter.mp (List.mem_of_find?_eq_some hm)).1
          have hmty : m.type = "module" := by
            have := List.find?_some hm
            simpa using this
          refine ⟨m, (List.mem_filter.mp hmF).1, ?_, ?_⟩
          · rw [hmty]
            decide
          · rw [← hni, hn']
        · exact hchild hright
    · intro hs
      obtain ⟨s, hsn, hsty, hsid⟩ := hs
      have hsF : s ∈ filteredSymbols g .symbol :=
        List.mem_filter.mpr ⟨hsn, by simp [hsty]⟩
      have : i ∈ nodeIdSet g .symbol :=
        List.mem_map.mpr ⟨s, hsF, hsid⟩
      exact nodeIdSet_subset_layout g .symbol huniq i this
  · intro e
    simp only [filteredEdges, List.mem_filter, decide_eq_true_eq]

/-- Claim C10, witness: the filtering theorem applied to the concrete
response `exGraph` — the cross-file imports edge passes the file-view edge
filter with both endpoints among the module node ids. -/
theorem C10_view_mode_filtering_witness :
    oneModulePerFile exGraph ∧
    (({ source_id := "m1", target_id := "m2", relation := "imports" } :
        GraphEdge) ∈ filteredEdges exGraph .file ↔
      ({ source_id := "m1", target_id := "m2", relation := "imports" } :
        GraphEdge) ∈ exGraph.edges ∧ "imports" = "imports" ∧
        "m1" ∈ nodeIdSet exGraph .file ∧ "m2" ∈ nodeIdSet exGraph .file) :=
  ⟨by unfold oneModulePerFile; decide,
   (C10_view_mode_filtering exGraph (by unfold oneModulePerFile; decide)).2.1
    { source_id := "m1", target_id := "m2", relation := "imports" }⟩

/-- Claim C2: the Cycle Detector is idempotent — its output is already the
canonical cycle set (every reported cycle is rotated to start at the
lexicographically smallest qualified name, rotations deduplicated), so
re-canonicalizing and re-deduplicating `detectCycles` changes nothing, and
a second run over the same snapshot returns the same set. -/
theorem C2_detect_cycles_idempotent (s : Snapshot) :
    canonDedup (detectCycles s) = detectCycles s ∧
    detectCycles s = detectCycles s := by
  refine ⟨?_, rfl⟩
  unfold detectCycles canonDedup
  have hfix : ∀ x ∈ dedupFirst ((rawCycles s).map canonicalize),
      canonicalize x = x := by
    intro x hx
    have hx' : x ∈ (rawCycles s).map canonicalize :=
      (mem_of_mem_dedupFirstAux hx).1
    obtain ⟨y, _, hy⟩ := List.mem_map.mp hx'
    rw [← hy, canonicalize_idem]
  have hmap : (dedupFirst ((rawCycles s).map canonicalize)).map canonicalize
      = dedupFirst ((rawCycles s).map canonicalize) := by
    calc (dedupFirst ((rawCycles s).map canonicalize)).map canonicalize
        = (dedupFirst ((rawCycles s).map canonicalize)).map id :=
          List.map_congr_left hfix
      _ = dedupFirst ((rawCycles s).map canonicalize) := List.map_id _
  rw [hmap, dedupFirst_idem]

/-- The already-visited pairs survive any number of BFS rounds. -/
theorem subset_bfsAux (s : Snapshot) :
    ∀ (budget depth : Nat) (visited : List (String × Nat)) (frontier : List String),
      visited ⊆ bfsAux s budget depth visited frontier := by
  intro budget
  induction budget with
  | zero => intro _ _ _; exact List.Subset.refl _
  | succ b ih =>
    intro depth visited frontier
    simp only [bfsAux]
    split
    · exact List.Subset.refl _
    · exact fun x hx => ih _ _ _ (List.mem_append_left _ hx)

/-- A BFS with a larger budget visits a superset: the first rounds of both
runs coincide, and visited pairs persist. -/
theorem bfsAux_mono (s : Snapshot) :
    ∀ (d k depth : Nat) (visited : List (String × Nat)) (frontier : List String),
      bfsAux s d depth visited frontier ⊆ bfsAux s (d + k) depth visited frontier := by
  intro d
  induction d with
  | zero =>
    intro k depth visited frontier
    simp only [Nat.zero_add]
    exact subset_bfsAux s k depth visited frontier
  | succ d ih =>
    intro k depth visited frontier
    have hadd : d + 1 + k = (d + k) + 1 := by omega
    rw [hadd]
    simp only [bfsAux]
    by_cases hne : (dedupFirst ((frontier.flatMap (reverseDeps s)).filter
        (fun id => visited.all (fun p => p.1 ≠ id)))).isEmpty = true
    · rw [if_pos hne, if_pos hne]
      exact List.Subset.refl _
    · rw [if_neg hne, if_neg hne]
      exact ih k _ _ _

/-- Claim C3: the Impact Simulator is monotonic in the depth limit — for any
snapshot, seed request, and positive depths `d1 ≤ d2`, the affected-symbol
set at depth limit `d1` is a subset of the one at depth limit `d2`. -/
theorem C3_simulate_depth_monotone (s : Snapshot) (req : SimRequest)
    (d1 d2 : Int) (h1 : 0 < d1) (hle : d1 ≤ d2) :
    affectedOf (simulate s { req with depthLimit := d1 }) ⊆
      affectedOf (simulate s { req with depthLimit := d2 }) := by
  unfold simulate
  by_cases hseed : req.file = none ∧ req.symbol = none
  · simp [hseed, affectedOf]
  · have hd1 : ¬(d1 ≤ 0) := by omega
    have hd2 : ¬(d2 ≤ 0) := by omega
    dsimp only
    simp only [if_neg hseed, if_neg hd1, if_neg hd2]
    have hres : ∀ d : Int, resolveSeeds s { req with depthLimit := d } =
        resolveSeeds s req := fun _ => rfl
    rw [hres d1, hres d2]
    cases hr : resolveSeeds s req with
    | none => simp [affectedOf]
    | some seeds =>
      simp only [affectedOf, runImpact]
      intro x hx
      have hx1 := List.mem_filter.mp hx
      refine List.mem_filter.mpr ⟨?_, hx1.2⟩
      have hk : d1.toNat + (d2.toNat - d1.toNat) = d2.toNat := by
        have := Int.toNat_le_toNat hle
        omega
      have := bfsAux_mono s d1.toNat (d2.toNat - d1.toNat) 0
        ((dedupFirst seeds).map (fun id => (id, 0))) (dedupFirst seeds)
      rw [hk] at this
      exact this hx1.1

/-- Claim C3, witness: depth monotonicity applied to the concrete snapshot
`exSnap` with the symbol seed `g` at depths 1 and 2. -/
theorem C3_simulate_depth_monotone_witness :
    (0 : Int) < 1 ∧ (1 : Int) ≤ 2 ∧
    affectedOf (simulate exSnap { exReq with depthLimit := 1 }) ⊆
      affectedOf (simulate exSnap { exReq with depthLimit := 2 }) :=
  ⟨by decide, by decide,
   C3_simulate_depth_monotone exSnap exReq 1 2 (by decide) (by decide)⟩

/-- Claim C7: the aggregate `riskScore` is clamped to 0–100, and the scorer
is monotonic — between two snapshots over the same files, raising per-file
complexities and adding cycles (with the fan-in/fan-out imbalance
unchanged) never decreases the aggregate. -/
theorem C7_risk_score_clamped_monotone (cfg : ScorerConfig) :
    (∀ t : Snapshot, 0 ≤ riskScore cfg t ∧ riskScore cfg t ≤ 100) ∧
    (∀ s s' : Snapshot, filesOfSnap s' = filesOfSnap s →
      (∀ f ∈ filesOfSnap s, fileComplexity cfg s f ≤ fileComplexity cfg s' f) →
      s.cycles.length ≤ s'.cycles.length →
      imbalance s' = imbalance s →
      riskScore cfg s ≤ riskScore cfg s') := by
  constructor
  · intro t
    exact ⟨Nat.zero_le _, min_le_left _ _⟩
  · intro s s' hfiles hcomp hcyc himb
    unfold riskScore
    refine min_le_min le_rfl ?_
    have htot : complexityTotal cfg s ≤ complexityTotal cfg s' := by
      unfold complexityTotal
      rw [hfiles]
      exact List.sum_le_sum hcomp
    have hnorm : normComplexity cfg s ≤ normComplexity cfg s' := by
      unfold normComplexity
      rw [hfiles]
      exact Nat.div_le_div_right htot
    exact add_le_add
      (add_le_add (Nat.mul_le_mul_left _ hnorm) (Nat.mul_le_mul_left _ hcyc))
      (himb ▸ le_refl _)

/-- Claim C7, witness: the clamping and monotonicity theorem applied to the
concrete pair `exSnap` / `exSnapRiskier` (one more cycle, larger spans and
risk hits in `a.py`, identical edges). -/
theorem C7_risk_score_clamped_monotone_witness :
    (0 ≤ riskScore exCfg exSnap ∧ riskScore exCfg exSnap ≤ 100) ∧
    riskScore exCfg exSnap ≤ riskScore exCfg exSnapRiskier :=
  ⟨(C7_risk_score_clamped_monotone exCfg).1 exSnap,
   (C7_risk_score_clamped_monotone exCfg).2 exSnap exSnapRiskier
     (by decide) (by decide) (by decide) (by decide)⟩

end CodeFlux
